/-
Verification of the chip8emu CHIP-8 core (src/chip8core/src/emulator.rs and
src/chip8core/src/opcodes.rs) against its natural-language specification.

Modelling conventions:
- Machine integers (u8 / u16) are Nat with explicit `% 256` / `% 65536`
  wherever the Rust operation wraps (release-profile wrapping arithmetic;
  the `wrapping_add` / `overflowing_add` calls wrap in every profile).
- Rust's bounds-checked array indexing is modelled by `Except EmuPanic`:
  an out-of-range index yields an error value standing for the Rust panic.
  Each distinct panic site gets its own constructor so that the distinct
  failure conditions of the source are distinguishable.
- Arrays (`[u8; 4096]`, `[bool; 2048]`, ...) are modelled as total functions
  `Nat → Nat` / `Nat → Bool`; every write produced by the code is a pointwise
  function update at the written index.
- `rand::random::<u8>()` (used only by opcode 0xCxkk) is modelled by an
  explicit parameter `r` threaded into `execute_opcode`; the drawn byte is
  `r % 256`.
-/
import Mathlib

namespace Chip8

/-- 4K RAM (`RAM_SIZE` in emulator.rs). -/
def RAM_SIZE : Nat := 4096

/-- Display width in pixels. -/
def DISPLAY_WIDTH : Nat := 64

/-- Display height in pixels. -/
def DISPLAY_HEIGHT : Nat := 32

/-- Number of V registers. -/
def NUM_REGISTERS : Nat := 16

/-- Stack capacity in entries. -/
def STACK_SIZE : Nat := 16

/-- Number of keypad keys. -/
def NUM_KEYS : Nat := 16

/-- First 0x200 bytes reserved; programs start at 0x200. -/
def START_ADDRESS : Nat := 0x200

/-- Size in bytes of the font table copied into the start of RAM. -/
def FONTSET_SIZE : Nat := 80

/-- Modelled from the spec: `fontset.rs` (the `FONTSET` constant used by
`Emulator::new` and `Emulator::reset`) is not among the provided source
files; the spec fixes only that it is a font table of 16 glyphs of 5 bytes
each, pre-loaded into memory[0..80].  The canonical CHIP-8 font bytes are
used; no theorem below depends on the individual byte values. -/
def FONTSET_LIST : List Nat :=
  [0xF0, 0x90, 0x90, 0x90, 0xF0,
   0x20, 0x60, 0x20, 0x20, 0x70,
   0xF0, 0x10, 0xF0, 0x80, 0xF0,
   0xF0, 0x10, 0xF0, 0x10, 0xF0,
   0x90, 0x90, 0xF0, 0x10, 0x10,
   0xF0, 0x80, 0xF0, 0x10, 0xF0,
   0xF0, 0x80, 0xF0, 0x90, 0xF0,
   0xF0, 0x10, 0x20, 0x40, 0x40,
   0xF0, 0x90, 0xF0, 0x90, 0xF0,
   0xF0, 0x90, 0xF0, 0x10, 0xF0,
   0xF0, 0x90, 0xF0, 0x90, 0x90,
   0xE0, 0x90, 0xE0, 0x90, 0xE0,
   0xF0, 0x80, 0x80, 0x80, 0xF0,
   0xE0, 0x90, 0x90, 0x90, 0xE0,
   0xF0, 0x80, 0xF0, 0x80, 0xF0,
   0xF0, 0x80, 0xF0, 0x80, 0x80]

/-- The font table as a byte-indexed function. -/
def FONTSET (i : Nat) : Nat := FONTSET_LIST.getD i 0

/-- The CPU state of `struct Emulator` (emulator.rs).  Array fields are
total functions; the u16 scalar fields hold values below 2^16 whenever the
state arises from the constructors and operations below. -/
structure Emulator where
  /-- Program counter (u16). -/
  program_counter : Nat
  /-- 4K RAM, byte valued. -/
  ram : Nat → Nat
  /-- Monochrome screen, 64*32 pixels, row-major. -/
  display : Nat → Bool
  /-- Sixteen 8-bit V registers. -/
  v_registers : Nat → Nat
  /-- I register (u16). -/
  i_register : Nat
  /-- Stack pointer (u16). -/
  stack_pointer : Nat
  /-- Sixteen 16-bit stack entries. -/
  stack : Nat → Nat
  /-- Sixteen keypad key states. -/
  keys : Nat → Bool
  /-- Delay timer (u8). -/
  delay_timer : Nat
  /-- Sound timer (u8). -/
  sound_timer : Nat

/-- The run-time failures (Rust panics) the core can produce.  Each
constructor corresponds to one distinct panic site / condition in the
source. -/
inductive EmuPanic where
  /-- Panic of `self.stack[self.stack_pointer] = val` in `push` when the
  bounds check fails, i.e. when all 16 stack entries are occupied. -/
  | stackOverflow
  /-- Panic of `self.stack_pointer -= 1` in `pop` when the stack is empty
  (checked u16 subtraction; in release profile the wrapped pointer 0xFFFF
  fails the subsequent bounds check instead — either way `pop` on an empty
  stack fails before reading anything). -/
  | stackUnderflow
  /-- Panic of a bounds-checked RAM / keypad / stack read or write at an
  out-of-range index. -/
  | indexOutOfBounds
  /-- The `unimplemented!("Unimplemented opcode: ...")` panic of the final
  match arm of `execute_opcode`. -/
  | unsupportedOpcode (op : Nat)
deriving DecidableEq

/-- `Emulator::new()`: default field values, then the font table is copied
over the first `FONTSET_SIZE` bytes of the zeroed RAM. -/
def Emulator.new : Emulator where
  program_counter := START_ADDRESS
  ram := fun i => if i < FONTSET_SIZE then FONTSET i else 0
  display := fun _ => false
  v_registers := fun _ => 0
  i_register := 0
  stack_pointer := 0
  stack := fun _ => 0
  keys := fun _ => false
  delay_timer := 0
  sound_timer := 0

/-- `Emulator::reset()`: reassigns every field to its default value and
copies the font table over the first `FONTSET_SIZE` bytes of the zeroed
RAM, exactly as `new` does. -/
def Emulator.reset (emu : Emulator) : Emulator :=
  { emu with
    program_counter := START_ADDRESS
    ram := fun i => if i < FONTSET_SIZE then FONTSET i else 0
    display := fun _ => false
    v_registers := fun _ => 0
    i_register := 0
    stack_pointer := 0
    stack := fun _ => 0
    keys := fun _ => false
    delay_timer := 0
    sound_timer := 0 }

/-- `get_v`: read V register `index` (all call sites pass an index below 16,
matching the in-bounds array read of the source). -/
def get_v (emu : Emulator) (index : Nat) : Nat := emu.v_registers index

/-- `set_v`: write V register `index` (all call sites pass an index below
16, matching the in-bounds array write of the source). -/
def set_v (emu : Emulator) (index value : Nat) : Emulator :=
  { emu with v_registers := fun i => if i = index then value else emu.v_registers i }

/-- Bounds-checked RAM read `emu.ram[i]`. -/
def ramRead (emu : Emulator) (i : Nat) : Except EmuPanic Nat :=
  if i < RAM_SIZE then .ok (emu.ram i) else .error .indexOutOfBounds

/-- Bounds-checked RAM write `emu.ram[i] = v`. -/
def ramWrite (emu : Emulator) (i v : Nat) : Except EmuPanic Emulator :=
  if i < RAM_SIZE then
    .ok { emu with ram := fun j => if j = i then v else emu.ram j }
  else .error .indexOutOfBounds

/-- Bounds-checked keypad read `emu.keys[i]`. -/
def keysRead (emu : Emulator) (i : Nat) : Except EmuPanic Bool :=
  if i < NUM_KEYS then .ok (emu.keys i) else .error .indexOutOfBounds

/-- `push`: `self.stack[self.stack_pointer] = val; self.stack_pointer += 1`.
The array write is bounds-checked: with all 16 entries occupied it panics
(`stackOverflow`) before mutating anything. -/
def push (emu : Emulator) (val : Nat) : Except EmuPanic Emulator :=
  if emu.stack_pointer < STACK_SIZE then
    .ok { emu with
          stack := fun j => if j = emu.stack_pointer then val else emu.stack j
          stack_pointer := (emu.stack_pointer + 1) % 65536 }
  else .error .stackOverflow

/-- `pop`: `self.stack_pointer -= 1; self.stack[self.stack_pointer]`.  On an
empty stack the decrement fails (`stackUnderflow`); otherwise the read is
bounds-checked. -/
def pop (emu : Emulator) : Except EmuPanic (Nat × Emulator) :=
  if emu.stack_pointer = 0 then .error .stackUnderflow
  else
    let sp := emu.stack_pointer - 1
    if sp < STACK_SIZE then .ok (emu.stack sp, { emu with stack_pointer := sp })
    else .error .indexOutOfBounds

/-- `fetch`: reads the opcode at the program counter and advances the
program counter by 2.  NOTE (faithful to the source): both `higher_byte`
and `lower_byte` read `self.ram[self.program_counter]` — the lower byte is
NOT read at `program_counter + 1`. -/
def fetch (emu : Emulator) : Except EmuPanic (Nat × Emulator) := do
  let higher_byte ← ramRead emu emu.program_counter
  let lower_byte ← ramRead emu emu.program_counter
  let op := Nat.lor (Nat.shiftLeft higher_byte 8) lower_byte
  .ok (op, { emu with program_counter := (emu.program_counter + 2) % 65536 })

/-- The decoded instruction families of the `match` in `execute_opcode`
(opcodes.rs), one constructor per arm, carrying the operand fields the arm
extracts; `unsupported` is the final catch-all arm. -/
inductive Instr where
  | nop
  | cls
  | ret
  | jp (nnn : Nat)
  | call (nnn : Nat)
  | seVxByte (x kk : Nat)
  | sneVxByte (x kk : Nat)
  | seVxVy (x y : Nat)
  | ldVxByte (x kk : Nat)
  | addVxByte (x kk : Nat)
  | ldVxVy (x y : Nat)
  | orVxVy (x y : Nat)
  | andVxVy (x y : Nat)
  | xorVxVy (x y : Nat)
  | addVxVy (x y : Nat)
  | subVxVy (x y : Nat)
  | shrVx (x : Nat)
  | subnVxVy (x y : Nat)
  | shlVx (x : Nat)
  | sneVxVy (x y : Nat)
  | ldIAddr (nnn : Nat)
  | jpV0 (nnn : Nat)
  | rndVxByte (x kk : Nat)
  | drwVxVyN (x y n : Nat)
  | skpVx (x : Nat)
  | sknpVx (x : Nat)
  | ldVxDt (x : Nat)
  | ldVxK (x : Nat)
  | ldDtVx (x : Nat)
  | ldStVx (x : Nat)
  | addIVx (x : Nat)
  | ldFVx (x : Nat)
  | ldBVx (x : Nat)
  | ldIVx (x : Nat)
  | ldVxI (x : Nat)
  | unsupported
deriving DecidableEq

/-- The nibble split and `match` of `execute_opcode` (opcodes.rs), arm for
arm in source order.  `digit1 = (op & 0xF000) >> 12` is `op / 4096 % 16`,
and similarly for the other nibbles; `kk = op & 0x00FF` is `op % 256`,
`nnn = op & 0x0FFF` is `op % 4096`. -/
def decode (op : Nat) : Instr :=
  let digit1 := op / 4096 % 16
  let digit2 := op / 256 % 16
  let digit3 := op / 16 % 16
  let digit4 := op % 16
  if digit1 = 0x0 ∧ digit2 = 0x0 ∧ digit3 = 0x0 ∧ digit4 = 0x0 then .nop
  else if digit1 = 0x0 ∧ digit2 = 0x0 ∧ digit3 = 0xE ∧ digit4 = 0x0 then .cls
  else if digit1 = 0x0 ∧ digit2 = 0x0 ∧ digit3 = 0xE ∧ digit4 = 0xE then .ret
  else if digit1 = 0x1 then .jp (op % 4096)
  else if digit1 = 0x2 then .call (op % 4096)
  else if digit1 = 0x3 then .seVxByte digit2 (op % 256)
  else if digit1 = 0x4 then .sneVxByte digit2 (op % 256)
  else if digit1 = 0x5 ∧ digit4 = 0 then .seVxVy digit2 digit3
  else if digit1 = 0x6 then .ldVxByte digit2 (op % 256)
  else if digit1 = 0x7 then .addVxByte digit2 (op % 256)
  else if digit1 = 0x8 ∧ digit4 = 0x0 then .ldVxVy digit2 digit3
  else if digit1 = 0x8 ∧ digit4 = 0x1 then .orVxVy digit2 digit3
  else if digit1 = 0x8 ∧ digit4 = 0x2 then .andVxVy digit2 digit3
  else if digit1 = 0x8 ∧ digit4 = 0x3 then .xorVxVy digit2 digit3
  else if digit1 = 0x8 ∧ digit4 = 0x4 then .addVxVy digit2 digit3
  else if digit1 = 0x8 ∧ digit4 = 0x5 then .subVxVy digit2 digit3
  else if digit1 = 0x8 ∧ digit4 = 0x6 then .shrVx digit2
  else if digit1 = 0x8 ∧ digit4 = 0x7 then .subnVxVy digit2 digit3
  else if digit1 = 0x8 ∧ digit4 = 0xE then .shlVx digit2
  else if digit1 = 0x9 ∧ digit4 = 0x0 then .sneVxVy digit2 digit3
  else if digit1 = 0xA then .ldIAddr (op % 4096)
  else if digit1 = 0xB then .jpV0 (op % 4096)
  else if digit1 = 0xC then .rndVxByte digit2 (op % 256)
  else if digit1 = 0xD then .drwVxVyN digit2 digit3 digit4
  else if digit1 = 0xE ∧ digit3 = 0x9 ∧ digit4 = 0xE then .skpVx digit2
  else if digit1 = 0xE ∧ digit3 = 0xA ∧ digit4 = 0x1 then .sknpVx digit2
  else if digit1 = 0xF ∧ digit3 = 0x0 ∧ digit4 = 0x7 then .ldVxDt digit2
  else if digit1 = 0xF ∧ digit3 = 0x0 ∧ digit4 = 0xA then .ldVxK digit2
  else if digit1 = 0xF ∧ digit3 = 0x1 ∧ digit4 = 0x5 then .ldDtVx digit2
  else if digit1 = 0xF ∧ digit3 = 0x1 ∧ digit4 = 0x8 then .ldStVx digit2
  else if digit1 = 0xF ∧ digit3 = 0x1 ∧ digit4 = 0xE then .addIVx digit2
  else if digit1 = 0xF ∧ digit3 = 0x2 ∧ digit4 = 0x9 then .ldFVx digit2
  else if digit1 = 0xF ∧ digit3 = 0x3 ∧ digit4 = 0x3 then .ldBVx digit2
  else if digit1 = 0xF ∧ digit3 = 0x5 ∧ digit4 = 0x5 then .ldIVx digit2
  else if digit1 = 0xF ∧ digit3 = 0x6 ∧ digit4 = 0x5 then .ldVxI digit2
  else .unsupported

/-- `cls`: clear the display. -/
def cls (emu : Emulator) : Emulator := { emu with display := fun _ => false }

/-- `ret`: pop the return address and jump to it. -/
def ret (emu : Emulator) : Except EmuPanic Emulator := do
  let r ← pop emu
  .ok { r.2 with program_counter := r.1 }

/-- `jp`: jump to `addr`. -/
def jp (emu : Emulator) (addr : Nat) : Emulator :=
  { emu with program_counter := addr }

/-- `call`: push the current program counter, then jump to `addr`. -/
def call (emu : Emulator) (addr : Nat) : Except EmuPanic Emulator := do
  let emu1 ← push emu emu.program_counter
  .ok { emu1 with program_counter := addr }

/-- `se_vx_byte`: skip the next instruction iff Vx = `byte`. -/
def se_vx_byte (emu : Emulator) (x byte : Nat) : Emulator :=
  if get_v emu x = byte then
    { emu with program_counter := (emu.program_counter + 2) % 65536 }
  else emu

/-- `sne_vx_byte`: skip the next instruction iff Vx ≠ `byte`. -/
def sne_vx_byte (emu : Emulator) (x byte : Nat) : Emulator :=
  if get_v emu x ≠ byte then
    { emu with program_counter := (emu.program_counter + 2) % 65536 }
  else emu

/-- `se_vx_vy`: skip the next instruction iff Vx = Vy. -/
def se_vx_vy (emu : Emulator) (x y : Nat) : Emulator :=
  if get_v emu x = get_v emu y then
    { emu with program_counter := (emu.program_counter + 2) % 65536 }
  else emu

/-- `ld_vx_byte`: Vx := `byte`. -/
def ld_vx_byte (emu : Emulator) (x byte : Nat) : Emulator := set_v emu x byte

/-- `add_vx_byte`: Vx := Vx + `byte`, wrapping. -/
def add_vx_byte (emu : Emulator) (x byte : Nat) : Emulator :=
  set_v emu x ((get_v emu x + byte) % 256)

/-- `ld_vx_vy`: Vx := Vy. -/
def ld_vx_vy (emu : Emulator) (x y : Nat) : Emulator := set_v emu x (get_v emu y)

/-- `or`: Vx := Vx OR Vy (bitwise). -/
def orVxVy (emu : Emulator) (x y : Nat) : Emulator :=
  set_v emu x (Nat.lor (get_v emu x) (get_v emu y))

/-- `and`: Vx := Vx AND Vy (bitwise). -/
def andVxVy (emu : Emulator) (x y : Nat) : Emulator :=
  set_v emu x (Nat.land (get_v emu x) (get_v emu y))

/-- `xor`: Vx := Vx XOR Vy (bitwise). -/
def xorVxVy (emu : Emulator) (x y : Nat) : Emulator :=
  set_v emu x (Nat.xor (get_v emu x) (get_v emu y))

/-- `add_vx_vy`: `overflowing_add` of the two u8 register values: Vx gets
the wrapped sum, then VF gets the carry (1 iff the unsigned sum exceeds
255).  The VF write happens after the Vx write, exactly as in the source. -/
def add_vx_vy (emu : Emulator) (x y : Nat) : Emulator :=
  let vx := get_v emu x
  let vy := get_v emu y
  let new_vx := (vx + vy) % 256
  let carry := 255 < vx + vy
  set_v (set_v emu x new_vx) 15 (if carry then 1 else 0)

/-- `sub_vx_vy`: `overflowing_sub`: Vx := Vx - Vy wrapping, then VF := NOT
borrow (1 iff Vx ≥ Vy before the operation). -/
def sub_vx_vy (emu : Emulator) (x y : Nat) : Emulator :=
  let vx := get_v emu x
  let vy := get_v emu y
  let new_vx := (vx + 256 - vy % 256) % 256
  let borrow := vx < vy
  set_v (set_v emu x new_vx) 15 (if borrow then 0 else 1)

/-- `shr`: VF := least-significant bit of Vx (captured before the shift),
Vx := Vx >> 1.  Source order: Vx is written first, then VF. -/
def shrVx (emu : Emulator) (x : Nat) : Emulator :=
  let vx := get_v emu x
  let lsb := Nat.land vx 1
  set_v (set_v emu x (vx / 2)) 15 lsb

/-- `subn_vx_vy`: Vx := Vy - Vx wrapping, then VF := NOT borrow. -/
def subn_vx_vy (emu : Emulator) (x y : Nat) : Emulator :=
  let vx := get_v emu x
  let vy := get_v emu y
  let new_vx := (vy + 256 - vx % 256) % 256
  let borrow := vy < vx
  set_v (set_v emu x new_vx) 15 (if borrow then 0 else 1)

/-- `shl`: VF := most-significant bit of Vx (captured before the shift),
Vx := Vx << 1 wrapping.  Source order: Vx is written first, then VF. -/
def shlVx (emu : Emulator) (x : Nat) : Emulator :=
  let vx := get_v emu x
  let msb := Nat.land (vx / 128) 1
  set_v (set_v emu x (vx * 2 % 256)) 15 msb

/-- `sne_vx_vy`: skip the next instruction iff Vx ≠ Vy. -/
def sne_vx_vy (emu : Emulator) (x y : Nat) : Emulator :=
  if get_v emu x ≠ get_v emu y then
    { emu with program_counter := (emu.program_counter + 2) % 65536 }
  else emu

/-- `ld_i_addr`: I := `addr`. -/
def ld_i_addr (emu : Emulator) (addr : Nat) : Emulator :=
  { emu with i_register := addr }

/-- `jp_v0`: program counter := `addr` + V0 (u16 addition). -/
def jp_v0 (emu : Emulator) (addr : Nat) : Emulator :=
  { emu with program_counter := (addr + get_v emu 0) % 65536 }

/-- `rnd`: Vx := random byte AND `byte`; the random u8 drawn from
`rand::random` is supplied as `r % 256`. -/
def rnd (r : Nat) (emu : Emulator) (x byte : Nat) : Emulator :=
  set_v emu x (Nat.land (r % 256) byte)

/-- `skp`: skip the next instruction iff the key with the value of Vx is
pressed (`emu.keys[Vx]` is bounds-checked: Vx ≥ 16 panics). -/
def skp (emu : Emulator) (x : Nat) : Except EmuPanic Emulator := do
  let k ← keysRead emu (get_v emu x)
  if k then .ok { emu with program_counter := (emu.program_counter + 2) % 65536 }
  else .ok emu

/-- `sknp`: skip the next instruction iff the key with the value of Vx is
not pressed. -/
def sknp (emu : Emulator) (x : Nat) : Except EmuPanic Emulator := do
  let k ← keysRead emu (get_v emu x)
  if !k then .ok { emu with program_counter := (emu.program_counter + 2) % 65536 }
  else .ok emu

/-- `ld_vx_dt`: Vx := delay timer. -/
def ld_vx_dt (emu : Emulator) (x : Nat) : Emulator := set_v emu x emu.delay_timer

/-- `ld_vx_k`: scan the 16 keys in ascending index order (the source's
`for` loop with `break`); on the first pressed key set Vx to its index; if
no key is pressed, rewind the program counter by 2 (u16 subtraction,
wrapping in release profile) so the opcode is re-fetched next step. -/
def ld_vx_k (emu : Emulator) (x : Nat) : Emulator :=
  match (List.range NUM_KEYS).find? (fun i => emu.keys i) with
  | some i => set_v emu x i
  | none => { emu with program_counter := (emu.program_counter + 65536 - 2) % 65536 }

/-- `ld_dt_vx`: delay timer := Vx. -/
def ld_dt_vx (emu : Emulator) (x : Nat) : Emulator :=
  { emu with delay_timer := get_v emu x }

/-- `ld_st_vx`: sound timer := Vx. -/
def ld_st_vx (emu : Emulator) (x : Nat) : Emulator :=
  { emu with sound_timer := get_v emu x }

/-- `add_i_vx`: I := I + Vx (`wrapping_add` on u16). -/
def add_i_vx (emu : Emulator) (x : Nat) : Emulator :=
  { emu with i_register := (emu.i_register + get_v emu x) % 65536 }

/-- `ld_f_vx`: I := Vx * 5 (u16 multiplication; 255 * 5 fits in u16). -/
def ld_f_vx (emu : Emulator) (x : Nat) : Emulator :=
  { emu with i_register := get_v emu x * 5 % 65536 }

/-- `ld_i_vx`: copy registers V0..=Vx into RAM starting at I (each address
`I + i` is a u16 addition and the write is bounds-checked). -/
def ld_i_vx (emu : Emulator) (x : Nat) : Except EmuPanic Emulator :=
  (List.range (x + 1)).foldlM
    (fun e i => ramWrite e ((emu.i_register + i) % 65536) (get_v e i)) emu

/-- `ld_vx_i`: read registers V0..=Vx from RAM starting at I. -/
def ld_vx_i (emu : Emulator) (x : Nat) : Except EmuPanic Emulator :=
  (List.range (x + 1)).foldlM
    (fun e i => do
      let b ← ramRead e ((emu.i_register + i) % 65536)
      .ok (set_v e i b)) emu

/-- The sprite-bit test of `drw` (opcodes.rs): bit `col` of byte `b`,
most-significant bit first (`row_pixels & (0b1000_0000 >> col_offset) != 0`). -/
def spriteBit (b col : Nat) : Bool := Nat.land b (Nat.shiftRight 128 col) != 0

/-- One iteration of the inner column loop of `drw` (opcodes.rs): if bit
`col_offset` (most-significant first: mask `0b1000_0000 >> col_offset`) of
the row byte is set, toggle the display pixel at
`x = (starting_col + col_offset) % 256 % 64` (u8 addition wraps, then
`% DISPLAY_WIDTH`), `idx = x + 64 * yCoord`, OR-ing the pre-toggle pixel
value into the `pixels_flipped` accumulator first. -/
def drwColStep (starting_col yCoord row_pixels : Nat) (acc : (Nat → Bool) × Bool)
    (col_offset : Nat) : (Nat → Bool) × Bool :=
  if spriteBit row_pixels col_offset then
    let x := (starting_col + col_offset) % 256 % DISPLAY_WIDTH
    let idx := x + DISPLAY_WIDTH * yCoord
    (fun j => if j = idx then !(acc.1 j) else acc.1 j, acc.2 || acc.1 idx)
  else acc

/-- The outer row loop of `drw`: for each `row_offset`, read the row byte
at `I + row_offset` (u16 addition; the RAM read is bounds-checked), compute
`yCoord = (starting_row + row_offset) % 65536 % 32` (u16 addition, then
`% DISPLAY_HEIGHT`), and run the 8-column inner loop. -/
def drwRows (emu : Emulator) (starting_col starting_row : Nat) :
    List Nat → (Nat → Bool) → Bool → Except EmuPanic ((Nat → Bool) × Bool)
  | [], disp, flipped => .ok (disp, flipped)
  | row_offset :: rest, disp, flipped => do
    let row_pixels ← ramRead emu ((emu.i_register + row_offset) % 65536)
    let yCoord := (starting_row + row_offset) % 65536 % DISPLAY_HEIGHT
    let acc := (List.range 8).foldl (drwColStep starting_col yCoord row_pixels) (disp, flipped)
    drwRows emu starting_col starting_row rest acc.1 acc.2

/-- `drw`: draw the `num_rows`-byte sprite at memory location I at
(Vx, Vy); afterwards VF := 1 if any touched pixel was on before its toggle,
else VF := 0. -/
def drw (emu : Emulator) (x y num_rows : Nat) : Except EmuPanic Emulator := do
  let starting_col := get_v emu x
  let starting_row := get_v emu y
  let acc ← drwRows emu starting_col starting_row (List.range num_rows) emu.display false
  let emu1 := { emu with display := acc.1 }
  .ok (set_v emu1 15 (if acc.2 then 1 else 0))

/-- Bounded floor of log2 (fuel-driven; `floorLog2 n = ⌊log2 n⌋` for
`0 < n < 2^64`, and `floorLog2 0 = 0`). -/
def floorLog2Aux : Nat → Nat → Nat
  | 0, _ => 0
  | fuel + 1, n => if n < 2 then 0 else floorLog2Aux fuel (n / 2) + 1

/-- Floor of log2 for the operand sizes occurring here. -/
def floorLog2 (n : Nat) : Nat := floorLog2Aux 64 n

/-- Integer rounding of `p / q` to nearest, ties to even (`q > 0`). -/
def roundNearestEven (p q : Nat) : Nat :=
  let d := p / q
  let r := p % q
  if 2 * r < q then d
  else if q < 2 * r then d + 1
  else if d % 2 = 0 then d else d + 1

/-- IEEE-754 binary32 (Rust `f32`) correctly-rounded division `a / b` of
two exactly representable naturals, returned as a dyadic pair `(m, k)`
whose value is `m / 2^k`: the quotient is rounded to 24 significant bits
(round to nearest, ties to even).  Valid for quotients in the normal
finite range, which covers every division performed by `ld_b_vx`
(`vx / 100.0` and `vx / 10.0` with `0 ≤ vx ≤ 255`). -/
def f32DivDyadic (a b : Nat) : Nat × Nat :=
  if a = 0 then (0, 0)
  else
    let e : Int := (floorLog2 (a * 2 ^ 40 / b) : Int) - 40
    let k : Nat := (23 - e).toNat
    (roundNearestEven (a * 2 ^ k) b, k)

/-- The floating-point BCD pipeline of `ld_b_vx` (opcodes.rs), modelled
bit-exactly on f32 arithmetic:
`hundreds = (vx / 100.0).floor() as u8`,
`tens = ((vx / 10.0) % 10.0).floor() as u8`,
`ones = (vx % 10.0) as u8`.
The conversion of the u8 `vx` to f32 is exact; f32 `%` (fmod) and `floor`
are exact on the dyadic values involved, and the `as u8` casts act on
values in 0..=9 (0..=2 for the hundreds) so are the identity. -/
def bcdFloat (vx : Nat) : Nat × Nat × Nat :=
  let q100 := f32DivDyadic vx 100
  let hundreds := q100.1 / 2 ^ q100.2
  let q10 := f32DivDyadic vx 10
  let t := q10.1 - 10 * (q10.1 / (10 * 2 ^ q10.2)) * 2 ^ q10.2
  let tens := t / 2 ^ q10.2
  let ones := vx % 10
  (hundreds, tens, ones)

/-- `ld_b_vx`: store the three BCD digits of Vx (computed by the
floating-point pipeline `bcdFloat`) at RAM addresses I, I+1, I+2 (u16
address additions; each write bounds-checked, in source order). -/
def ld_b_vx (emu : Emulator) (x : Nat) : Except EmuPanic Emulator := do
  let d := bcdFloat (get_v emu x)
  let emu1 ← ramWrite emu emu.i_register d.1
  let emu2 ← ramWrite emu1 ((emu.i_register + 1) % 65536) d.2.1
  ramWrite emu2 ((emu.i_register + 2) % 65536) d.2.2

/-- `execute_opcode`: decode `op` and execute the corresponding
instruction; the final catch-all arm is the `unimplemented!` panic,
modelled as the distinct error `unsupportedOpcode op`.  `r` supplies the
`rand::random::<u8>()` draw used only by the 0xCxkk arm. -/
def execute_opcode (r : Nat) (emu : Emulator) (op : Nat) : Except EmuPanic Emulator :=
  match decode op with
  | .nop => .ok emu
  | .cls => .ok (cls emu)
  | .ret => ret emu
  | .jp nnn => .ok (jp emu nnn)
  | .call nnn => call emu nnn
  | .seVxByte x kk => .ok (se_vx_byte emu x kk)
  | .sneVxByte x kk => .ok (sne_vx_byte emu x kk)
  | .seVxVy x y => .ok (se_vx_vy emu x y)
  | .ldVxByte x kk => .ok (ld_vx_byte emu x kk)
  | .addVxByte x kk => .ok (add_vx_byte emu x kk)
  | .ldVxVy x y => .ok (ld_vx_vy emu x y)
  | .orVxVy x y => .ok (orVxVy emu x y)
  | .andVxVy x y => .ok (andVxVy emu x y)
  | .xorVxVy x y => .ok (xorVxVy emu x y)
  | .addVxVy x y => .ok (add_vx_vy emu x y)
  | .subVxVy x y => .ok (sub_vx_vy emu x y)
  | .shrVx x => .ok (shrVx emu x)
  | .subnVxVy x y => .ok (subn_vx_vy emu x y)
  | .shlVx x => .ok (shlVx emu x)
  | .sneVxVy x y => .ok (sne_vx_vy emu x y)
  | .ldIAddr nnn => .ok (ld_i_addr emu nnn)
  | .jpV0 nnn => .ok (jp_v0 emu nnn)
  | .rndVxByte x kk => .ok (rnd r emu x kk)
  | .drwVxVyN x y n => drw emu x y n
  | .skpVx x => skp emu x
  | .sknpVx x => sknp emu x
  | .ldVxDt x => .ok (ld_vx_dt emu x)
  | .ldVxK x => .ok (ld_vx_k emu x)
  | .ldDtVx x => .ok (ld_dt_vx emu x)
  | .ldStVx x => .ok (ld_st_vx emu x)
  | .addIVx x => .ok (add_i_vx emu x)
  | .ldFVx x => .ok (ld_f_vx emu x)
  | .ldBVx x => ld_b_vx emu x
  | .ldIVx x => ld_i_vx emu x
  | .ldVxI x => ld_vx_i emu x
  | .unsupported => .error (.unsupportedOpcode op)

/-- Spec-side definition, following the spec's words for the 0xFx33
"open question": the exact integer BCD computation
`(v / 100, (v / 10) % 10, v % 10)` — hundreds, tens, ones. -/
def bcdInt (v : Nat) : Nat × Nat × Nat := (v / 100, v / 10 % 10, v % 10)

/-- The destination pixel index of the sprite-draw claim: row-major index
of `((Vx + column) mod 64, (Vy + row) mod 32)` on the 64-wide screen. -/
def spritePixel (vx vy row col : Nat) : Nat :=
  (vx + col) % 64 + 64 * ((vy + row) % 32)

/-- The pixels the sprite draw 0xDxyn touches: pixel `p` is touched iff
some sprite row < n and column < 8 has its bit set (most-significant bit
first in the byte at memory I+row) and maps to `p` under the wrapped
coordinate formula. -/
def drwTouched (emu : Emulator) (x y n p : Nat) : Bool :=
  (List.range n).any fun row => (List.range 8).any fun col =>
    spriteBit (emu.ram (emu.i_register + row)) col &&
    (spritePixel (get_v emu x) (get_v emu y) row col == p)

/-- The collision condition of the sprite-draw claim: some touched pixel
was already on before its XOR toggle. -/
def drwCollision (emu : Emulator) (x y n : Nat) : Bool :=
  (List.range n).any fun row => (List.range 8).any fun col =>
    spriteBit (emu.ram (emu.i_register + row)) col &&
    emu.display (spritePixel (get_v emu x) (get_v emu y) row col)

/-- Frame condition: `emu2` differs from `emu` in at most register `x`:
every other V register and every other component of the machine state is
unchanged. -/
def onlyVxChanged (emu emu2 : Emulator) (x : Nat) : Prop :=
  (∀ i, i ≠ x → emu2.v_registers i = emu.v_registers i) ∧
  emu2.program_counter = emu.program_counter ∧
  emu2.ram = emu.ram ∧
  emu2.display = emu.display ∧
  emu2.i_register = emu.i_register ∧
  emu2.stack_pointer = emu.stack_pointer ∧
  emu2.stack = emu.stack ∧
  emu2.keys = emu.keys ∧
  emu2.delay_timer = emu.delay_timer ∧
  emu2.sound_timer = emu.sound_timer

/-- A fresh machine whose ROM area holds the two bytes 0x2E 0x06 at the
initial program counter 0x200 — the fetch example of the spec's subroutine
test (`0x2E06` = "call subroutine at 0xE06"). -/
def emuFetchExample : Emulator :=
  { Emulator.new with
    ram := fun i => if i = 0x200 then 0x2E else if i = 0x201 then 0x06 else 0 }

/-- A fresh machine with VF = 0xB7 and V0 = 0x9D, the operand bytes of the
spec's own arithmetic example, placed so that `x = 0xF`. -/
def emuAddEdge : Emulator := set_v (set_v Emulator.new 15 0xB7) 0 0x9D

theorem decode_8xy1 (x y : Nat) (hx : x < 16) (hy : y < 16) :
    decode (0x8001 + 256 * x + 16 * y) = .orVxVy x y := by
  have h1 : (0x8001 + 256 * x + 16 * y) / 4096 % 16 = 8 := by omega
  have h2 : (0x8001 + 256 * x + 16 * y) / 256 % 16 = x := by omega
  have h3 : (0x8001 + 256 * x + 16 * y) / 16 % 16 = y := by omega
  have h4 : (0x8001 + 256 * x + 16 * y) % 16 = 1 := by omega
  simp only [decode, h1, h2, h3, h4]
  norm_num

theorem decode_8xy2 (x y : Nat) (hx : x < 16) (hy : y < 16) :
    decode (0x8002 + 256 * x + 16 * y) = .andVxVy x y := by
  have h1 : (0x8002 + 256 * x + 16 * y) / 4096 % 16 = 8 := by omega
  have h2 : (0x8002 + 256 * x + 16 * y) / 256 % 16 = x := by omega
  have h3 : (0x8002 + 256 * x + 16 * y) / 16 % 16 = y := by omega
  have h4 : (0x8002 + 256 * x + 16 * y) % 16 = 2 := by omega
  simp only [decode, h1, h2, h3, h4]
  norm_num

theorem decode_8xy3 (x y : Nat) (hx : x < 16) (hy : y < 16) :
    decode (0x8003 + 256 * x + 16 * y) = .xorVxVy x y := by
  have h1 : (0x8003 + 256 * x + 16 * y) / 4096 % 16 = 8 := by omega
  have h2 : (0x8003 + 256 * x + 16 * y) / 256 % 16 = x := by omega
  have h3 : (0x8003 + 256 * x + 16 * y) / 16 % 16 = y := by omega
  have h4 : (0x8003 + 256 * x + 16 * y) % 16 = 3 := by omega
  simp only [decode, h1, h2, h3, h4]
  norm_num

theorem decode_8xy4 (x y : Nat) (hx : x < 16) (hy : y < 16) :
    decode (0x8004 + 256 * x + 16 * y) = .addVxVy x y := by
  have h1 : (0x8004 + 256 * x + 16 * y) / 4096 % 16 = 8 := by omega
  have h2 : (0x8004 + 256 * x + 16 * y) / 256 % 16 = x := by omega
  have h3 : (0x8004 + 256 * x + 16 * y) / 16 % 16 = y := by omega
  have h4 : (0x8004 + 256 * x + 16 * y) % 16 = 4 := by omega
  simp only [decode, h1, h2, h3, h4]
  norm_num

theorem decode_Dxyn (x y n : Nat) (hx : x < 16) (hy : y < 16) (hn : n < 16) :
    decode (0xD000 + 256 * x + 16 * y + n) = .drwVxVyN x y n := by
  have h1 : (0xD000 + 256 * x + 16 * y + n) / 4096 % 16 = 13 := by omega
  have h2 : (0xD000 + 256 * x + 16 * y + n) / 256 % 16 = x := by omega
  have h3 : (0xD000 + 256 * x + 16 * y + n) / 16 % 16 = y := by omega
  have h4 : (0xD000 + 256 * x + 16 * y + n) % 16 = n := by omega
  simp only [decode, h1, h2, h3, h4]
  norm_num

theorem decode_Fx0A (x : Nat) (hx : x < 16) :
    decode (0xF00A + 256 * x) = .ldVxK x := by
  have h1 : (0xF00A + 256 * x) / 4096 % 16 = 15 := by omega
  have h2 : (0xF00A + 256 * x) / 256 % 16 = x := by omega
  have h3 : (0xF00A + 256 * x) / 16 % 16 = 0 := by omega
  have h4 : (0xF00A + 256 * x) % 16 = 10 := by omega
  simp only [decode, h1, h2, h3, h4]
  norm_num

theorem decode_jp (op : Nat) (hlo : 0x1000 ≤ op) (hhi : op < 0x2000) :
    decode op = .jp (op % 4096) := by
  have h1 : op / 4096 % 16 = 1 := by omega
  simp only [decode, h1]
  norm_num

theorem decode_call (op : Nat) (hlo : 0x2000 ≤ op) (hhi : op < 0x3000) :
    decode op = .call (op % 4096) := by
  have h1 : op / 4096 % 16 = 2 := by omega
  simp only [decode, h1]
  norm_num

theorem decode_jpV0 (op : Nat) (hlo : 0xB000 ≤ op) (hhi : op < 0xC000) :
    decode op = .jpV0 (op % 4096) := by
  have h1 : op / 4096 % 16 = 11 := by omega
  simp only [decode, h1]
  norm_num

theorem decode_sys (op : Nat) (h : op < 0x1000) (h0 : op ≠ 0x0000)
    (hE0 : op ≠ 0x00E0) (hEE : op ≠ 0x00EE) : decode op = .unsupported := by
  have h1 : op / 4096 % 16 = 0 := by omega
  simp only [decode, h1]
  norm_num
  split_ifs with ha hb hc
  · exfalso; omega
  · exfalso; omega
  · exfalso; omega
  · rfl

/-- C1 (the code evaluated at the failing input): with the two consecutive
bytes 0x2E 0x06 at the program counter, `fetch` returns the word 0x2E2E —
the byte at `program_counter` combined with itself — instead of the word
0x2E06 that combining `ram[pc]` and `ram[pc+1]` most-significant-byte-first
would give; the program counter does advance by exactly 2. -/
theorem fetch_reads_same_byte_twice :
    emuFetchExample.ram 0x200 = 0x2E ∧
    emuFetchExample.ram 0x201 = 0x06 ∧
    (fetch emuFetchExample).map Prod.fst = .ok 0x2E2E ∧
    (0x2E2E : Nat) ≠ 0x2E06 ∧
    (fetch emuFetchExample).map (fun pr => pr.2.program_counter) = .ok 0x202 :=
  ⟨rfl, rfl, rfl, by decide, rfl⟩

/-- C4: `push` on a machine whose 16 stack entries are all occupied fails
with the distinct stack-overflow panic, `pop` on an empty stack fails with
the distinct stack-underflow panic — both are surfaced failures, not
out-of-bounds accesses — and a push below capacity succeeds, storing the
value at the stack pointer and incrementing it. -/
theorem push_pop_boundary (emu : Emulator) (val : Nat) :
    (emu.stack_pointer = 16 → push emu val = .error .stackOverflow) ∧
    (emu.stack_pointer = 0 → pop emu = .error .stackUnderflow) ∧
    (emu.stack_pointer < 16 → ∃ emu2, push emu val = .ok emu2 ∧
      emu2.stack emu.stack_pointer = val ∧
      emu2.stack_pointer = emu.stack_pointer + 1) := by
  refine ⟨fun h16 => ?_, fun h0 => ?_, fun hlt => ?_⟩
  · simp [push, h16, STACK_SIZE]
  · simp [pop, h0]
  · have hcond : emu.stack_pointer < STACK_SIZE := by simpa [STACK_SIZE] using hlt
    refine ⟨_, by rw [push, if_pos hcond], by simp, ?_⟩
    simp only []
    omega

/-- Witness for `push_pop_boundary` at a full and at an empty stack. -/
theorem push_pop_boundary_witness :
    push { Emulator.new with stack_pointer := 16 } 0x123 = .error .stackOverflow ∧
    pop Emulator.new = .error .stackUnderflow :=
  ⟨(push_pop_boundary { Emulator.new with stack_pointer := 16 } 0x123).1 rfl,
   (push_pop_boundary Emulator.new 0x123).2.1 rfl⟩

/-- C8: `reset` returns every state to the exact post-construction state of
`new` (hence reset is idempotent): program counter 0x200, the font table in
memory[0..80], the rest of RAM zeroed, and registers, I, stack, stack
pointer, keypad, framebuffer and both timers cleared. -/
theorem reset_restores_initial (emu : Emulator) :
    emu.reset = Emulator.new ∧
    emu.reset.reset = emu.reset ∧
    Emulator.new.program_counter = 0x200 ∧
    (∀ i, i < FONTSET_SIZE → Emulator.new.ram i = FONTSET i) ∧
    (∀ i, FONTSET_SIZE ≤ i → Emulator.new.ram i = 0) ∧
    (∀ i, Emulator.new.v_registers i = 0) ∧
    Emulator.new.i_register = 0 ∧
    Emulator.new.stack_pointer = 0 ∧
    (∀ i, Emulator.new.stack i = 0) ∧
    (∀ i, Emulator.new.keys i = false) ∧
    (∀ p, Emulator.new.display p = false) ∧
    Emulator.new.delay_timer = 0 ∧
    Emulator.new.sound_timer = 0 := by
  refine ⟨rfl, rfl, rfl, fun i hi => ?_, fun i hi => ?_, fun i => rfl, rfl, rfl,
    fun i => rfl, fun i => rfl, fun p => rfl, rfl, rfl⟩
  · simp [Emulator.new, hi]
  · simp [Emulator.new]
    omega

/-- Witness for `reset_restores_initial` on a concrete dirtied state. -/
theorem reset_restores_initial_witness :
    Emulator.reset emuAddEdge = Emulator.new ∧
    Emulator.new.ram 0 = FONTSET 0 :=
  ⟨(reset_restores_initial emuAddEdge).1,
   (reset_restores_initial emuAddEdge).2.2.2.1 0 (by decide)⟩

/-- C3 counterexample: executing 0x8F04 (so x = 0xF, y = 0x0) with
VF = 0xB7 and V0 = 0x9D — the operand bytes of the claim's own example —
leaves register Vx = VF holding the carry flag 1, not the wrapped sum 0x54
that the claim's "sets Vx to (old Vx + old Vy) mod 256" demands: the carry
write to VF happens after the sum write and overwrites it when x = 0xF. -/
theorem add_vx_vy_flag_register_cex :
    (execute_opcode 0 emuAddEdge 0x8F04).map (fun e => get_v e 15) = .ok 1 ∧
    (1 : Nat) ≠ 0x54 :=
  ⟨rfl, by decide⟩

/-- C3 amended: for every pair of registers x, y with x ≠ 0xF, executing
0x8xy4 sets Vx to (old Vx + old Vy) mod 256 and VF to 1 if the unsigned
sum exceeds 255, else 0 (when x = 0xF the carry write wins, see the
counterexample); in particular 0xB7 + 0x9D yields Vx = 0x54 with VF = 1
and 0xB7 + 0x1F yields Vx = 0xD6 with VF = 0. -/
theorem add_vx_vy_spec (r : Nat) (emu : Emulator) (x y : Nat)
    (hx : x < 16) (hy : y < 16) (hxF : x ≠ 15)
    (hvx : get_v emu x < 256) (hvy : get_v emu y < 256) :
    ∃ emu2, execute_opcode r emu (0x8004 + 256 * x + 16 * y) = .ok emu2 ∧
      get_v emu2 x = (get_v emu x + get_v emu y) % 256 ∧
      get_v emu2 15 = (if 255 < get_v emu x + get_v emu y then 1 else 0) ∧
      (∀ i, i ≠ x → i ≠ 15 → emu2.v_registers i = emu.v_registers i) ∧
      (get_v emu x = 0xB7 → get_v emu y = 0x9D →
        get_v emu2 x = 0x54 ∧ get_v emu2 15 = 1) ∧
      (get_v emu x = 0xB7 → get_v emu y = 0x1F →
        get_v emu2 x = 0xD6 ∧ get_v emu2 15 = 0) := by
  refine ⟨add_vx_vy emu x y, by simp [execute_opcode, decode_8xy4 x y hx hy], ?_, ?_, ?_, ?_, ?_⟩
  · simp [add_vx_vy, get_v, set_v, hxF]
  · simp [add_vx_vy, get_v, set_v]
  · intro i hix hi15
    simp [add_vx_vy, get_v, set_v, hix, hi15]
  · intro hb7 h9d
    rw [show get_v (add_vx_vy emu x y) x = (get_v emu x + get_v emu y) % 256 from
      by simp [add_vx_vy, get_v, set_v, hxF]]
    rw [show get_v (add_vx_vy emu x y) 15 =
        (if 255 < get_v emu x + get_v emu y then 1 else 0) from
      by simp [add_vx_vy, get_v, set_v]]
    rw [hb7, h9d]
    norm_num
  · intro hb7 h1f
    rw [show get_v (add_vx_vy emu x y) x = (get_v emu x + get_v emu y) % 256 from
      by simp [add_vx_vy, get_v, set_v, hxF]]
    rw [show get_v (add_vx_vy emu x y) 15 =
        (if 255 < get_v emu x + get_v emu y then 1 else 0) from
      by simp [add_vx_vy, get_v, set_v]]
    rw [hb7, h1f]
    norm_num

/-- Witness for `add_vx_vy_spec`: V1 = 0xB7, V2 = 0x9D, opcode 0x8124. -/
theorem add_vx_vy_spec_witness :
    ∃ emu2, execute_opcode 0 (set_v (set_v Emulator.new 1 0xB7) 2 0x9D) 0x8124 = .ok emu2 ∧
      get_v emu2 1 = 0x54 ∧ get_v emu2 15 = 1 := by
  obtain ⟨emu2, hrun, -, -, -, hspec, -⟩ :=
    add_vx_vy_spec 0 (set_v (set_v Emulator.new 1 0xB7) 2 0x9D) 1 2
      (by decide) (by decide) (by decide) (by decide) (by decide)
  refine ⟨emu2, by simpa using hrun, (hspec (by decide) (by decide)).1,
    (hspec (by decide) (by decide)).2⟩

/-- C10: for registers x ≠ 0xF and y, each of the logical opcodes 0x8xy1,
0x8xy2, 0x8xy3 sets Vx to Vx OR/AND/XOR Vy respectively and changes
nothing else: not any other V register (in particular not the flag
register VF), not the program counter, I register, memory, framebuffer,
stack, keypad or timers. -/
theorem logic_opcodes_only_change_vx (r : Nat) (emu : Emulator) (x y : Nat)
    (hx : x < 16) (hy : y < 16) (hxF : x ≠ 15) :
    (∃ emu2, execute_opcode r emu (0x8001 + 256 * x + 16 * y) = .ok emu2 ∧
      get_v emu2 x = Nat.lor (get_v emu x) (get_v emu y) ∧
      get_v emu2 15 = get_v emu 15 ∧ onlyVxChanged emu emu2 x) ∧
    (∃ emu2, execute_opcode r emu (0x8002 + 256 * x + 16 * y) = .ok emu2 ∧
      get_v emu2 x = Nat.land (get_v emu x) (get_v emu y) ∧
      get_v emu2 15 = get_v emu 15 ∧ onlyVxChanged emu emu2 x) ∧
    (∃ emu2, execute_opcode r emu (0x8003 + 256 * x + 16 * y) = .ok emu2 ∧
      get_v emu2 x = Nat.xor (get_v emu x) (get_v emu y) ∧
      get_v emu2 15 = get_v emu 15 ∧ onlyVxChanged emu emu2 x) := by
  refine ⟨⟨orVxVy emu x y, by simp [execute_opcode, decode_8xy1 x y hx hy],
      by simp [orVxVy, get_v, set_v],
      by simp [orVxVy, get_v, set_v, Ne.symm hxF],
      fun i hix => by simp [orVxVy, get_v, set_v, hix],
      rfl, rfl, rfl, rfl, rfl, rfl, rfl, rfl, rfl⟩,
    ⟨andVxVy emu x y, by simp [execute_opcode, decode_8xy2 x y hx hy],
      by simp [andVxVy, get_v, set_v],
      by simp [andVxVy, get_v, set_v, Ne.symm hxF],
      fun i hix => by simp [andVxVy, get_v, set_v, hix],
      rfl, rfl, rfl, rfl, rfl, rfl, rfl, rfl, rfl⟩,
    ⟨xorVxVy emu x y, by simp [execute_opcode, decode_8xy3 x y hx hy],
      by simp [xorVxVy, get_v, set_v],
      by simp [xorVxVy, get_v, set_v, Ne.symm hxF],
      fun i hix => by simp [xorVxVy, get_v, set_v, hix],
      rfl, rfl, rfl, rfl, rfl, rfl, rfl, rfl, rfl⟩⟩

/-- Witness for `logic_opcodes_only_change_vx` with x = 1, y = 2. -/
theorem logic_opcodes_only_change_vx_witness :
    ∃ emu2, execute_opcode 0 (set_v (set_v Emulator.new 1 0x5E) 2 0x22) 0x8121 = .ok emu2 ∧
      get_v emu2 1 = Nat.lor 0x5E 0x22 ∧
      get_v emu2 15 = get_v (set_v (set_v Emulator.new 1 0x5E) 2 0x22) 15 := by
  obtain ⟨⟨emu2, hrun, hvx, hvf, -⟩, -, -⟩ :=
    logic_opcodes_only_change_vx 0 (set_v (set_v Emulator.new 1 0x5E) 2 0x22) 1 2
      (by decide) (by decide) (by decide)
  exact ⟨emu2, by simpa using hrun, by simpa using hvx, hvf⟩

/-- C6: every instruction word matching none of the decoded opcode
patterns makes `execute_opcode` fail with the distinct error
`unsupportedOpcode` carrying that word (never a silent skip); in
particular every word of the 0x0nnn SYS family other than 0x0000, 0x00E0
and 0x00EE matches no pattern and so fails this way. -/
theorem unsupported_opcode_errors (r : Nat) (emu : Emulator) (op : Nat) :
    (decode op = .unsupported →
      execute_opcode r emu op = .error (.unsupportedOpcode op)) ∧
    (op < 0x1000 → op ≠ 0x0000 → op ≠ 0x00E0 → op ≠ 0x00EE →
      execute_opcode r emu op = .error (.unsupportedOpcode op)) := by
  constructor
  · intro h
    simp [execute_opcode, h]
  · intro h h0 hE0 hEE
    simp [execute_opcode, decode_sys op h h0 hE0 hEE]

/-- Witness for `unsupported_opcode_errors` at the SYS word 0x0123. -/
theorem unsupported_opcode_errors_witness :
    execute_opcode 0 Emulator.new 0x0123 = .error (.unsupportedOpcode 0x0123) :=
  (unsupported_opcode_errors 0 Emulator.new 0x0123).2
    (by decide) (by decide) (by decide) (by decide)

theorem except_bind_ok {α β ε : Type} (a : α) (f : α → Except ε β) :
    (Except.ok a : Except ε α) >>= f = f a := rfl

theorem except_bind_error {α β ε : Type} (e : ε) (f : α → Except ε β) :
    (Except.error e : Except ε α) >>= f = Except.error e := rfl

theorem find_range_none {p : Nat → Bool} (n : Nat) (h : ∀ i, i < n → p i = false) :
    (List.range n).find? p = none :=
  List.find?_eq_none.mpr fun x hx => by simp [h x (List.mem_range.mp hx)]

theorem find_range_first {p : Nat → Bool} (i : Nat) (hp : p i = true)
    (hmin : ∀ j, j < i → p j = false) :
    ∀ n, i < n → (List.range n).find? p = some i := by
  intro n
  induction n with
  | zero => omega
  | succ n ih =>
    intro hin
    rw [List.range_succ, List.find?_append]
    by_cases hi : i < n
    · rw [ih hi]
      rfl
    · have hie : i = n := by omega
      subst hie
      rw [find_range_none i hmin]
      simp [hp]

/-- C9 counterexample: from the initial state, executing 0x60FF
(V0 := 0xFF) and then 0xBFFF (program counter := 0xFFF + V0) drives the
program counter to 0x10FE = 4350, which is not below 4096. -/
theorem pc_range_cex :
    ((execute_opcode 0 Emulator.new 0x60FF).bind
        (fun s => execute_opcode 0 s 0xBFFF)).map Emulator.program_counter =
      .ok 0x10FE ∧
    ¬ (0x10FE : Nat) < 4096 :=
  ⟨rfl, by decide⟩

/-- C9 amended: plain jumps 0x1nnn and calls 0x2nnn always leave the
program counter below 4096, and a fetch leaves it below 4096 when it was
below 4094; but jump-with-offset 0xBnnn computes nnn + V0 without masking,
so (for V0 < 256) its result is only bounded by 0x10FE = 4350 and can
reach values at and above 4096 — pc < 4096 is not an invariant of every
operation. -/
theorem pc_range_amended (r : Nat) (emu : Emulator) (op : Nat) :
    (0x1000 ≤ op → op < 0x3000 →
      ∀ emu2, execute_opcode r emu op = .ok emu2 → emu2.program_counter < 4096) ∧
    (0xB000 ≤ op → op < 0xC000 → get_v emu 0 < 256 →
      ∀ emu2, execute_opcode r emu op = .ok emu2 → emu2.program_counter ≤ 0x10FE) ∧
    (emu.program_counter + 2 < 4096 →
      ∀ pr, fetch emu = .ok pr → pr.2.program_counter < 4096) := by
  refine ⟨fun hlo hhi emu2 hrun => ?_, fun hlo hhi hv0 emu2 hrun => ?_,
    fun hpc pr hrun => ?_⟩
  · by_cases hjp : op < 0x2000
    · rw [show execute_opcode r emu op = .ok (jp emu (op % 4096)) from
        by simp [execute_opcode, decode_jp op hlo hjp]] at hrun
      rw [Except.ok.injEq] at hrun
      subst hrun
      show op % 4096 < 4096
      omega
    · have hd := decode_call op (by omega) (by omega)
      simp only [execute_opcode, hd, call] at hrun
      cases hpush : push emu emu.program_counter with
      | error e =>
        rw [hpush, except_bind_error] at hrun
        exact absurd hrun (by simp)
      | ok emu1 =>
        rw [hpush, except_bind_ok, Except.ok.injEq] at hrun
        subst hrun
        show op % 4096 < 4096
        omega
  · rw [show execute_opcode r emu op = .ok (jp_v0 emu (op % 4096)) from
      by simp [execute_opcode, decode_jpV0 op hlo hhi]] at hrun
    rw [Except.ok.injEq] at hrun
    subst hrun
    show (op % 4096 + get_v emu 0) % 65536 ≤ 0x10FE
    omega
  · cases hread : ramRead emu emu.program_counter with
    | error e =>
      rw [fetch, hread, except_bind_error] at hrun
      exact absurd hrun (by simp)
    | ok b =>
      rw [fetch, hread, except_bind_ok, except_bind_ok, Except.ok.injEq] at hrun
      subst hrun
      show (emu.program_counter + 2) % 65536 < 4096
      omega

/-- Witness for `pc_range_amended`: jump 0x1234 from a fresh machine. -/
theorem pc_range_amended_witness :
    ∀ emu2, execute_opcode 0 Emulator.new 0x1234 = .ok emu2 →
      emu2.program_counter < 4096 :=
  (pc_range_amended 0 Emulator.new 0x1234).1 (by decide) (by decide)

/-- C5: 0xFx0A scans the 16 keypad entries in ascending index order.  With
`i` the lowest pressed key, Vx := i and the program counter stays exactly
as fetch left it; with no key pressed, the program counter is decremented
by exactly 2 and the call returns normally (the modelled function is
total: no internal blocking or looping). -/
theorem ld_vx_k_spec (r : Nat) (emu : Emulator) (x : Nat) (hx : x < 16) :
    (∀ i, i < 16 → emu.keys i = true → (∀ j, j < i → emu.keys j = false) →
      execute_opcode r emu (0xF00A + 256 * x) = .ok (set_v emu x i) ∧
      (set_v emu x i).program_counter = emu.program_counter ∧
      get_v (set_v emu x i) x = i) ∧
    ((∀ i, i < 16 → emu.keys i = false) → 2 ≤ emu.program_counter →
      emu.program_counter < 65536 →
      execute_opcode r emu (0xF00A + 256 * x) =
        .ok { emu with program_counter := emu.program_counter - 2 }) := by
  constructor
  · intro i hi hp hmin
    have hfind : (List.range NUM_KEYS).find? (fun j => emu.keys j) = some i :=
      find_range_first i hp hmin 16 hi
    exact ⟨by simp [execute_opcode, decode_Fx0A x hx, ld_vx_k, hfind], rfl,
      by simp [get_v, set_v]⟩
  · intro hnone h2 hlt
    have hfind : (List.range NUM_KEYS).find? (fun j => emu.keys j) = none :=
      find_range_none 16 hnone
    have hmod : (emu.program_counter + 65534) % 65536 =
        emu.program_counter - 2 := by omega
    simp [execute_opcode, decode_Fx0A x hx, ld_vx_k, hfind, hmod]

/-- Witness for `ld_vx_k_spec`: key 3 is the lowest pressed key (Vx gets
3, pc untouched); and with no key pressed from a fresh machine the pc
rewinds from 0x200 to 0x1FE. -/
theorem ld_vx_k_spec_witness :
    execute_opcode 0 { Emulator.new with keys := fun i => i == 3 } 0xF20A =
      .ok (set_v { Emulator.new with keys := fun i => i == 3 } 2 3) ∧
    execute_opcode 0 Emulator.new 0xF20A =
      .ok { Emulator.new with program_counter := 0x1FE } := by
  constructor
  · exact ((ld_vx_k_spec 0 { Emulator.new with keys := fun i => i == 3 } 2
      (by decide)).1 3 (by decide) (by decide) (by decide)).1
  · exact (ld_vx_k_spec 0 Emulator.new 2 (by decide)).2
      (fun i hi => rfl) (by decide) (by decide)

theorem decode_Fx33 (x : Nat) (hx : x < 16) :
    decode (0xF033 + 256 * x) = .ldBVx x := by
  have h1 : (0xF033 + 256 * x) / 4096 % 16 = 15 := by omega
  have h2 : (0xF033 + 256 * x) / 256 % 16 = x := by omega
  have h3 : (0xF033 + 256 * x) / 16 % 16 = 3 := by omega
  have h4 : (0xF033 + 256 * x) % 16 = 3 := by omega
  simp only [decode, h1, h2, h3, h4]
  norm_num

theorem ramWrite_lt (emu : Emulator) (i v : Nat) (h : i < 4096) :
    ramWrite emu i v =
      .ok { emu with ram := fun j => if j = i then v else emu.ram j } := by
  rw [ramWrite, if_pos (show i < RAM_SIZE from h)]

set_option maxRecDepth 100000 in
theorem bcdFloat_eq_bcdInt : ∀ v, v < 256 → bcdFloat v = bcdInt v := by decide

/-- C7: for every 8-bit value v, the floating-point BCD computation of
0xFx33 (`floor(v/100.0)`, `floor((v/10.0) mod 10.0)`, `v mod 10.0`,
modelled bit-exactly on binary32 arithmetic) is extensionally equal to the
exact integer computation `(v / 100, v / 10 % 10, v % 10)`, and executing
0xFx33 stores the three digits at memory[I], memory[I+1], memory[I+2] as
hundreds, tens, ones, leaving the rest of RAM unchanged. -/
theorem bcd_float_refines_int (r : Nat) (emu : Emulator) (x : Nat)
    (hx : x < 16) (hv : get_v emu x < 256) (hI : emu.i_register + 2 < 4096) :
    (∀ v, v < 256 → bcdFloat v = bcdInt v) ∧
    ∃ emu2, execute_opcode r emu (0xF033 + 256 * x) = .ok emu2 ∧
      emu2.ram emu.i_register = get_v emu x / 100 ∧
      emu2.ram (emu.i_register + 1) = get_v emu x / 10 % 10 ∧
      emu2.ram (emu.i_register + 2) = get_v emu x % 10 ∧
      (∀ j, j ≠ emu.i_register → j ≠ emu.i_register + 1 →
        j ≠ emu.i_register + 2 → emu2.ram j = emu.ram j) := by
  refine ⟨bcdFloat_eq_bcdInt, ?_⟩
  have hq : bcdFloat (get_v emu x) =
      (get_v emu x / 100, get_v emu x / 10 % 10, get_v emu x % 10) :=
    bcdFloat_eq_bcdInt _ hv
  have hmod1 : (emu.i_register + 1) % 65536 = emu.i_register + 1 := by omega
  have hmod2 : (emu.i_register + 2) % 65536 = emu.i_register + 2 := by omega
  have hexec : execute_opcode r emu (0xF033 + 256 * x) = ld_b_vx emu x := by
    simp [execute_opcode, decode_Fx33 x hx]
  rw [hexec]
  simp only [ld_b_vx, hq]
  rw [ramWrite_lt _ _ _ (show emu.i_register < 4096 by omega), except_bind_ok, hmod1,
    ramWrite_lt _ _ _ (show emu.i_register + 1 < 4096 by omega), except_bind_ok, hmod2,
    ramWrite_lt _ _ _ (show emu.i_register + 2 < 4096 by omega)]
  refine ⟨_, rfl, ?_, ?_, ?_, ?_⟩
  · simp [show emu.i_register ≠ emu.i_register + 2 by omega,
      show emu.i_register ≠ emu.i_register + 1 by omega]
  · simp [show emu.i_register + 1 ≠ emu.i_register + 2 by omega]
  · simp
  · intro j hj0 hj1 hj2
    simp [hj0, hj1, hj2]

/-- Witness for `bcd_float_refines_int`: V3 = 0xB7 = 183, I = 0x300. -/
theorem bcd_float_refines_int_witness :
    ∃ emu2, execute_opcode 0 { set_v Emulator.new 3 0xB7 with i_register := 0x300 }
        0xF333 = .ok emu2 ∧
      emu2.ram 0x300 = 1 ∧ emu2.ram 0x301 = 8 ∧ emu2.ram 0x302 = 3 := by
  obtain ⟨-, emu2, hrun, hh, ht, ho, -⟩ :=
    bcd_float_refines_int 0 { set_v Emulator.new 3 0xB7 with i_register := 0x300 } 3
      (by decide) (by decide) (by decide)
  exact ⟨emu2, by simpa using hrun, by simpa using hh, by simpa using ht,
    by simpa using ho⟩

/-- Helper for the sprite-draw claim (see `drw_spec`): 64 divides 256, so
the code's u8-wrapped column `(Vx + col) % 256 % 64` is the claim's
`(Vx + col) mod 64`. -/
theorem mod256_mod64 (a : Nat) : a % 256 % 64 = a % 64 :=
  Nat.mod_mod_of_dvd a (by norm_num)

theorem mod65536_mod32 (a : Nat) : a % 65536 % 32 = a % 32 :=
  Nat.mod_mod_of_dvd a (by norm_num)

theorem list_any_congr {α : Type} {l : List α} {f g : α → Bool}
    (h : ∀ a ∈ l, f a = g a) : l.any f = l.any g := by
  induction l with
  | nil => rfl
  | cons a l ih =>
    rw [List.any_cons, List.any_cons, h a (by simp),
      ih (fun b hb => h b (by simp [hb]))]

theorem drwColStep_foldl (sc yc pix : Nat) :
    ∀ (cs : List Nat),
      cs.Pairwise (fun a b => (sc + a) % 64 ≠ (sc + b) % 64) →
      ∀ (disp : Nat → Bool) (fl : Bool),
        (∀ p, (cs.foldl (drwColStep sc yc pix) (disp, fl)).1 p =
          xor (disp p)
            (cs.any fun c => spriteBit pix c && ((sc + c) % 64 + 64 * yc == p))) ∧
        (cs.foldl (drwColStep sc yc pix) (disp, fl)).2 =
          (fl || cs.any fun c => spriteBit pix c && disp ((sc + c) % 64 + 64 * yc)) := by
  intro cs
  induction cs with
  | nil => intro _ disp fl; simp
  | cons c cs ih =>
    intro hnd disp fl
    obtain ⟨hc, hcs⟩ := List.pairwise_cons.mp hnd
    rw [List.foldl_cons]
    by_cases hb : spriteBit pix c
    · have hstep : drwColStep sc yc pix (disp, fl) c =
          (fun j => if j = (sc + c) % 64 + 64 * yc then !(disp j) else disp j,
           fl || disp ((sc + c) % 64 + 64 * yc)) := by
        simp [drwColStep, hb, mod256_mod64, DISPLAY_WIDTH]
      rw [hstep]
      obtain ⟨ih1, ih2⟩ := ih hcs
        (fun j => if j = (sc + c) % 64 + 64 * yc then !(disp j) else disp j)
        (fl || disp ((sc + c) % 64 + 64 * yc))
      constructor
      · intro p
        rw [ih1 p, List.any_cons, hb, Bool.true_and]
        by_cases hp : p = (sc + c) % 64 + 64 * yc
        · subst hp
          have hrest : (cs.any fun a =>
              spriteBit pix a &&
                ((sc + a) % 64 + 64 * yc == (sc + c) % 64 + 64 * yc)) = false := by
            rw [List.any_eq_false]
            intro a ha
            have hne := hc a ha
            have hbeq : ((sc + a) % 64 + 64 * yc == (sc + c) % 64 + 64 * yc) = false :=
              beq_eq_false_iff_ne.mpr (by omega)
            simp [hbeq]
          rw [hrest]
          simp
        · have hbeq : ((sc + c) % 64 + 64 * yc == p) = false :=
            beq_eq_false_iff_ne.mpr (Ne.symm hp)
          rw [if_neg hp, hbeq, Bool.false_or]
      · rw [ih2, List.any_cons, hb, Bool.true_and]
        have hcong : (cs.any fun a => spriteBit pix a &&
              (if (sc + a) % 64 + 64 * yc = (sc + c) % 64 + 64 * yc then
                !(disp ((sc + a) % 64 + 64 * yc))
              else disp ((sc + a) % 64 + 64 * yc))) =
            (cs.any fun a => spriteBit pix a && disp ((sc + a) % 64 + 64 * yc)) := by
          apply list_any_congr
          intro a ha
          have hne := hc a ha
          rw [if_neg (by omega : ¬ (sc + a) % 64 + 64 * yc = (sc + c) % 64 + 64 * yc)]
        rw [hcong, Bool.or_assoc]
    · have hstep : drwColStep sc yc pix (disp, fl) c = (disp, fl) := by
        simp [drwColStep, hb]
      rw [hstep]
      obtain ⟨ih1, ih2⟩ := ih hcs disp fl
      refine ⟨fun p => ?_, ?_⟩
      · rw [ih1 p, List.any_cons]
        simp [hb]
      · rw [ih2, List.any_cons]
        simp [hb]

theorem pairwise_cols (sc : Nat) :
    (List.range 8).Pairwise (fun a b => (sc + a) % 64 ≠ (sc + b) % 64) :=
  (List.pairwise_lt_range 8).imp_of_mem (fun ha hb hlt => by
    have h8a := List.mem_range.mp ha
    have h8b := List.mem_range.mp hb
    omega)

theorem pairwise_rows (sr n : Nat) (hn : n ≤ 32) :
    (List.range n).Pairwise (fun a b => (sr + a) % 32 ≠ (sr + b) % 32) :=
  (List.pairwise_lt_range n).imp_of_mem (fun ha hb hlt => by
    have hna := List.mem_range.mp ha
    have hnb := List.mem_range.mp hb
    omega)

theorem drwRows_ok (emu : Emulator) (sc sr : Nat) :
    ∀ (rows : List Nat) (disp : Nat → Bool) (fl : Bool),
      (∀ row ∈ rows, emu.i_register + row < 4096) →
      rows.Pairwise (fun a b => (sr + a) % 32 ≠ (sr + b) % 32) →
      ∃ D F, drwRows emu sc sr rows disp fl = .ok (D, F) ∧
        (∀ p, D p = xor (disp p)
          (rows.any fun row => (List.range 8).any fun col =>
            spriteBit (emu.ram (emu.i_register + row)) col &&
            ((sc + col) % 64 + 64 * ((sr + row) % 32) == p))) ∧
        F = (fl || rows.any fun row => (List.range 8).any fun col =>
            spriteBit (emu.ram (emu.i_register + row)) col &&
            disp ((sc + col) % 64 + 64 * ((sr + row) % 32))) := by
  intro rows
  induction rows with
  | nil =>
    intro disp fl hbound hnd
    exact ⟨disp, fl, rfl, fun p => by simp, by simp⟩
  | cons row rows ih =>
    intro disp fl hbound hnd
    obtain ⟨hrhead, hrtail⟩ := List.pairwise_cons.mp hnd
    have hrow : emu.i_register + row < 4096 := hbound row (by simp)
    have hread : ramRead emu ((emu.i_register + row) % 65536) =
        .ok (emu.ram (emu.i_register + row)) := by
      rw [Nat.mod_eq_of_lt (by omega)]
      rw [ramRead, if_pos (show emu.i_register + row < RAM_SIZE from hrow)]
    obtain ⟨inner1, inner2⟩ :=
      drwColStep_foldl sc ((sr + row) % 32) (emu.ram (emu.i_register + row))
        (List.range 8) (pairwise_cols sc) disp fl
    obtain ⟨D, F, hrun, hD, hF⟩ := ih
      ((List.range 8).foldl
        (drwColStep sc ((sr + row) % 32) (emu.ram (emu.i_register + row))) (disp, fl)).1
      ((List.range 8).foldl
        (drwColStep sc ((sr + row) % 32) (emu.ram (emu.i_register + row))) (disp, fl)).2
      (fun rw hrw => hbound rw (by simp [hrw]))
      hrtail
    refine ⟨D, F, ?_, ?_, ?_⟩
    · show (do
        let row_pixels ← ramRead emu ((emu.i_register + row) % 65536)
        let yCoord := (sr + row) % 65536 % DISPLAY_HEIGHT
        let acc := (List.range 8).foldl (drwColStep sc yCoord row_pixels) (disp, fl)
        drwRows emu sc sr rows acc.1 acc.2) = .ok (D, F)
      rw [hread, except_bind_ok]
      show drwRows emu sc sr rows _ _ = .ok (D, F)
      rw [show (sr + row) % 65536 % DISPLAY_HEIGHT = (sr + row) % 32 from
        mod65536_mod32 (sr + row)]
      exact hrun
    · intro p
      rw [hD p, inner1 p, List.any_cons, Bool.xor_assoc]
      by_cases hinner : ((List.range 8).any fun col =>
          spriteBit (emu.ram (emu.i_register + row)) col &&
          ((sc + col) % 64 + 64 * ((sr + row) % 32) == p)) = true
      · obtain ⟨c, hc8, hcb⟩ := List.any_eq_true.mp hinner
        obtain ⟨hcbit, hcpix⟩ := (Bool.and_eq_true _ _).mp hcb
        have hcpix := beq_iff_eq.mp hcpix
        have hrest : (rows.any fun row2 => (List.range 8).any fun col =>
            spriteBit (emu.ram (emu.i_register + row2)) col &&
            ((sc + col) % 64 + 64 * ((sr + row2) % 32) == p)) = false := by
          rw [List.any_eq_false]
          intro row2 hrow2
          rw [Bool.not_eq_true, List.any_eq_false]
          intro c2 hc28
          have hyne := hrhead row2 hrow2
          have hxa : (sc + c) % 64 < 64 := Nat.mod_lt _ (by omega)
          have hxb : (sc + c2) % 64 < 64 := Nat.mod_lt _ (by omega)
          have hbeq : ((sc + c2) % 64 + 64 * ((sr + row2) % 32) == p) = false :=
            beq_eq_false_iff_ne.mpr (by omega)
          simp [hbeq]
        rw [hrest, hinner]
        simp
      · rw [(by simpa using hinner : ((List.range 8).any fun col =>
            spriteBit (emu.ram (emu.i_register + row)) col &&
            ((sc + col) % 64 + 64 * ((sr + row) % 32) == p)) = false)]
        simp
    · rw [hF, inner2, List.any_cons, Bool.or_assoc]
      have hcong : (rows.any fun row2 => (List.range 8).any fun col =>
            spriteBit (emu.ram (emu.i_register + row2)) col &&
            ((List.range 8).foldl
              (drwColStep sc ((sr + row) % 32) (emu.ram (emu.i_register + row)))
              (disp, fl)).1 ((sc + col) % 64 + 64 * ((sr + row2) % 32))) =
          (rows.any fun row2 => (List.range 8).any fun col =>
            spriteBit (emu.ram (emu.i_register + row2)) col &&
            disp ((sc + col) % 64 + 64 * ((sr + row2) % 32))) := by
        apply list_any_congr
        intro row2 hrow2
        apply list_any_congr
        intro c2 hc28
        have hyne := hrhead row2 hrow2
        have hval : ((List.range 8).foldl
            (drwColStep sc ((sr + row) % 32) (emu.ram (emu.i_register + row)))
            (disp, fl)).1 ((sc + c2) % 64 + 64 * ((sr + row2) % 32)) =
            disp ((sc + c2) % 64 + 64 * ((sr + row2) % 32)) := by
          rw [inner1]
          have hany : ((List.range 8).any fun c3 =>
              spriteBit (emu.ram (emu.i_register + row)) c3 &&
              ((sc + c3) % 64 + 64 * ((sr + row) % 32) ==
                (sc + c2) % 64 + 64 * ((sr + row2) % 32))) = false := by
            rw [List.any_eq_false]
            intro c3 hc38
            have hxa : (sc + c3) % 64 < 64 := Nat.mod_lt _ (by omega)
            have hxb : (sc + c2) % 64 < 64 := Nat.mod_lt _ (by omega)
            have hbeq : ((sc + c3) % 64 + 64 * ((sr + row) % 32) ==
                (sc + c2) % 64 + 64 * ((sr + row2) % 32)) = false :=
              beq_eq_false_iff_ne.mpr (by omega)
            simp [hbeq]
          rw [hany, Bool.xor_false]
        rw [hval]
      rw [hcong]


/-- C2: executing 0xDxyn reads, for each of the n sprite rows, the byte at
memory[I+row]; for each of its 8 bits (most-significant first) that is
set, the framebuffer bit at `((Vx + column) mod 64, (Vy + row) mod 32)` —
wrapping, never clipping — is XOR-toggled; after all rows VF = 1 iff some
touched pixel was on before its XOR (within one sprite all touched pixels
are distinct, so the pre-XOR values are the pre-draw values); everything
except the framebuffer and VF is unchanged. -/
theorem drw_spec (r : Nat) (emu : Emulator) (x y n : Nat)
    (hx : x < 16) (hy : y < 16) (hn : n < 16)
    (hI : emu.i_register + n ≤ 4096) :
    ∃ emu2, execute_opcode r emu (0xD000 + 256 * x + 16 * y + n) = .ok emu2 ∧
      (∀ p, emu2.display p = xor (emu.display p) (drwTouched emu x y n p)) ∧
      emu2.v_registers 15 = (if drwCollision emu x y n then 1 else 0) ∧
      (∀ i, i ≠ 15 → emu2.v_registers i = emu.v_registers i) ∧
      emu2.program_counter = emu.program_counter ∧
      emu2.ram = emu.ram ∧ emu2.i_register = emu.i_register ∧
      emu2.stack_pointer = emu.stack_pointer ∧ emu2.stack = emu.stack ∧
      emu2.keys = emu.keys ∧ emu2.delay_timer = emu.delay_timer ∧
      emu2.sound_timer = emu.sound_timer := by
  obtain ⟨D, F, hrun, hD, hF⟩ :=
    drwRows_ok emu (get_v emu x) (get_v emu y) (List.range n) emu.display false
      (fun row hrow => by
        have := List.mem_range.mp hrow
        omega)
      (pairwise_rows (get_v emu y) n (by omega))
  refine ⟨set_v { emu with display := D } 15 (if F then 1 else 0), ?_, ?_, ?_, ?_,
    rfl, rfl, rfl, rfl, rfl, rfl, rfl, rfl⟩
  · rw [show execute_opcode r emu (0xD000 + 256 * x + 16 * y + n) = drw emu x y n from
      by simp [execute_opcode, decode_Dxyn x y n hx hy hn]]
    simp only [drw]
    rw [hrun, except_bind_ok]
  · intro p
    exact hD p
  · show (if (15 : Nat) = 15 then (if F then 1 else 0) else emu.v_registers 15) =
      if drwCollision emu x y n then 1 else 0
    rw [if_pos rfl, hF, Bool.false_or]
    rfl
  · intro i hi
    show (if i = 15 then (if F then 1 else 0) else emu.v_registers i) = emu.v_registers i
    rw [if_neg hi]

theorem drw_spec_witness :
    ∃ emu2, execute_opcode 0 Emulator.new 0xD001 = .ok emu2 ∧
      emu2.display 0 = true ∧ emu2.v_registers 15 = 0 := by
  obtain ⟨emu2, hrun, hdisp, hvf, -⟩ :=
    drw_spec 0 Emulator.new 0 0 1 (by decide) (by decide) (by decide) (by decide)
  refine ⟨emu2, by simpa using hrun, ?_, ?_⟩
  · rw [hdisp 0]
    decide
  · rw [hvf]
    decide

end Chip8
